import Mathlib

/-!
Verification of the batch-script debugger core (Rust sources under src/).

Strings from the Rust code are modelled as lists of characters (`Str`).
Rust byte indices are modelled as character indices; every index the code
takes lands on an ASCII character (carets, parentheses, quotes, operators),
so the two agree on the inputs considered here.  Rust's Unicode
`char::is_whitespace` is modelled by Lean's `Char.isWhitespace`
(space, tab, carriage return, newline), which agrees on ASCII text.
`eprintln!` logging and child-process writes are side effects with no
bearing on the values computed and are not modelled.
-/

abbrev Str := List Char

def str (s : String) : Str := s.toList

/-- ASCII lower-casing of one character, as Rust's
`u8::to_ascii_lowercase` used by `eq_ignore_ascii_case`. -/
def asciiLower (c : Char) : Char :=
  if 'A' ≤ c ∧ c ≤ 'Z' then Char.ofNat (c.toNat + 32) else c

/-- ASCII upper-casing of one character; models `str::to_uppercase`
on ASCII input (the only case exercised by the prefix tests below). -/
def asciiUpper (c : Char) : Char :=
  if 'a' ≤ c ∧ c ≤ 'z' then Char.ofNat (c.toNat - 32) else c

def upperStr (s : Str) : Str := s.map asciiUpper

def lowerStr (s : Str) : Str := s.map asciiLower

/-- Rust `a.eq_ignore_ascii_case(b)`. -/
def eqIgnoreAsciiCase : Str → Str → Bool
  | [], [] => true
  | a :: as', b :: bs' => decide (asciiLower a = asciiLower b) && eqIgnoreAsciiCase as' bs'
  | _, _ => false

/-- Rust `s.starts_with(p)`. -/
def startsWithStr : Str → Str → Bool
  | _, [] => true
  | [], _ :: _ => false
  | c :: cs, p :: ps => decide (c = p) && startsWithStr cs ps

/-- Rust `s.ends_with(p)`. -/
def endsWithStr (s p : Str) : Bool := startsWithStr s.reverse p.reverse

/-- Rust `s.trim_start()`. -/
def trimStartWs (s : Str) : Str := s.dropWhile Char.isWhitespace

/-- Rust `s.trim_end()`. -/
def trimEndWs (s : Str) : Str := (s.reverse.dropWhile Char.isWhitespace).reverse

/-- Rust `s.trim()`. -/
def trimWs (s : Str) : Str := trimEndWs (trimStartWs s)

/-- Rust `s.trim_end_matches([' ', '\t'])`. -/
def trimEndSpTab (s : Str) : Str :=
  (s.reverse.dropWhile (fun c => c = ' ' ∨ c = '\t')).reverse

def digitVal (c : Char) : Nat := c.toNat - '0'.toNat

/-- Value of a non-empty all-digit string, `none` otherwise. -/
def digitsVal : Str → Option Nat
  | [] => none
  | [c] => if c.isDigit then some (digitVal c) else none
  | c :: cs =>
    if c.isDigit then
      match digitsVal cs with
      | some n => some (digitVal c * 10 ^ cs.length + n)
      | none => none
    else none

/-- Rust `s.parse::<i32>()`: optional sign, one or more ASCII digits,
result within the i32 range. -/
def parseI32 (s : Str) : Option Int :=
  match s with
  | '+' :: rest =>
    match digitsVal rest with
    | some n => if n ≤ 2147483647 then some (n : Int) else none
    | none => none
  | '-' :: rest =>
    match digitsVal rest with
    | some n => if n ≤ 2147483648 then some (-(n : Int)) else none
    | none => none
  | _ =>
    match digitsVal s with
    | some n => if n ≤ 2147483647 then some (n : Int) else none
    | none => none

/-! ## Parser data types (src/src/parser/types.rs, commands.rs) -/

structure JoinedLine where
  text : Str
  phys_start : Nat
  phys_end : Nat
deriving DecidableEq

structure LogicalLine where
  text : Str
  phys_start : Nat
  phys_end : Nat
  group_id : Option Nat
  group_depth : Nat
deriving DecidableEq

structure PreprocessResult where
  logical : List LogicalLine
  phys_to_logical : List Nat
deriving DecidableEq

inductive CommandOp where
  | Unconditional
  | And
  | Or
deriving DecidableEq

structure CommandPart where
  text : Str
  op : Option CommandOp
deriving DecidableEq

/-! ## Preprocessor (src/src/parser/preprocessor.rs)

`join_continued_lines` is a pair of nested loops: the outer loop starts a
group at index `i`, the inner loop consumes continuing lines into `buf`.
It is embedded as the single recursion `joinAll` over the remaining lines,
whose state (current buffer, group start index if a group is open, current
physical index) is exactly the loop state of the source. -/

/-- `det` in the source: the line with trailing spaces/tabs removed. -/
def detOf (l : Str) : Str := trimEndSpTab l

/-- `caret_count` in the source: length of the trailing run of carets
of `det`. -/
def caretCountOf (l : Str) : Nat :=
  ((detOf l).reverse.takeWhile (fun c => c = '^')).length

/-- `continues` in the source (preprocessor.rs lines 24-26). -/
def continuesOf (l : Str) : Bool :=
  !(detOf l).isEmpty
    && decide ((detOf l).reverse.find? (fun c => !c.isWhitespace) = some '^')
    && decide (caretCountOf l % 2 = 1)

/-- `trimmed_without_one_caret` for a continuing line: the head of
`line.split_at(det.len() - 1)`, i.e. everything before the last caret. -/
def pieceOf (l : Str) : Str := l.take ((detOf l).length - 1)

/-- The fused join loop.  `buf` is the accumulated text of the open group
(`[]` when none is open yet, matching `buf.is_empty()` in the source),
`startOpt` the group's starting physical index once a line has been
consumed, `i` the physical index of the head of `lines`. -/
def joinAll (buf : Str) (startOpt : Option Nat) (i : Nat) : List Str → List JoinedLine
  | [] => []
  | l :: rest =>
    let st := startOpt.getD i
    let c := continuesOf l
    let piece := if c then pieceOf l else l
    let buf' := if buf.isEmpty then piece else buf ++ ' ' :: piece
    if c then
      match rest with
      | [] => [⟨buf', st, i + 1⟩]
      | _ :: _ => joinAll buf' (some st) (i + 1) rest
    else
      ⟨buf', st, i⟩ :: joinAll [] none (i + 1) rest

def join_continued_lines (physical : List Str) : List JoinedLine :=
  joinAll [] none 0 physical

/-- The mutable scan state of `annotate_blocks`: `depth`, the
`group_id_stack` (top at the head), `next_group_id`, and the per-line
`escaped` flag. -/
structure AnnState where
  depth : Int
  stack : List Nat
  next : Nat
  escaped : Bool
deriving DecidableEq

/-- One step of the character loop of `annotate_blocks`
(preprocessor.rs lines 86-109).  Note that no double-quote state is
tracked here: the loop handles only caret escapes and parentheses. -/
def annStep (s : AnnState) (c : Char) : AnnState :=
  if s.escaped then { s with escaped := false }
  else if c = '^' then { s with escaped := true }
  else if c = '(' then
    { s with depth := s.depth + 1, stack := s.next :: s.stack, next := s.next + 1 }
  else if c = ')' then
    { s with depth := if s.depth > 0 then s.depth - 1 else s.depth,
             stack := s.stack.tail }
  else s

def annAux (depth : Int) (stack : List Nat) (next : Nat) : List JoinedLine → List LogicalLine
  | [] => []
  | j :: rest =>
    let lineDepth := (max depth 0).toNat
    let g := stack.head?
    let s := j.text.foldl annStep ⟨depth, stack, next, false⟩
    ⟨j.text, j.phys_start, j.phys_end, g, lineDepth⟩ :: annAux s.depth s.stack s.next rest

def annotate_blocks (joined : List JoinedLine) : List LogicalLine :=
  annAux 0 [] 1 joined

/-- `phys_to_logical[p] = li`, or `none` when `p` is out of bounds (a Rust
`Vec` index out of bounds aborts the program). -/
def setIdx (xs : List Nat) (p v : Nat) : Option (List Nat) :=
  if p < xs.length then some (xs.set p v) else none

/-- `for p in a..=a+cnt { phys_to_logical[p] = v }`; the source always has
`phys_start ≤ phys_end`, so the inclusive range is `cnt + 1 = phys_end -
phys_start + 1` writes. -/
def writeSpan (v a : Nat) : Nat → List Nat → Option (List Nat)
  | 0, xs => setIdx xs a v
  | n + 1, xs =>
    match setIdx xs a v with
    | none => none
    | some xs' => writeSpan v (a + 1) n xs'

def writeAll (li : Nat) : List JoinedLine → List Nat → Option (List Nat)
  | [], xs => some xs
  | j :: rest, xs =>
    match writeSpan li j.phys_start (j.phys_end - j.phys_start) xs with
    | none => none
    | some xs' => writeAll (li + 1) rest xs'

/-- `preprocess_lines`; `none` models the abort of an out-of-bounds
write into `phys_to_logical` (length = number of physical lines). -/
def preprocess_lines (physical : List Str) : Option PreprocessResult :=
  let joined := join_continued_lines physical
  let logical := annotate_blocks joined
  match writeAll 0 joined (List.replicate physical.length 0) with
  | some m => some ⟨logical, m⟩
  | none => none

/-! ## Label index (src/src/parser/labels.rs) -/

abbrev LabelMap := Str → Option Nat

def emptyLabelMap : LabelMap := fun _ => none

def insertLabel (m : LabelMap) (k : Str) (v : Nat) : LabelMap :=
  fun x => if x = k then some v else m x

/-- The label name extracted from one physical line, when the line defines
a label: the first whitespace-separated token after the colon of the
trimmed line (or the whole tail when it has no token), trimmed and
lowercased. -/
def labelKeyOf (line : Str) : Option Str :=
  let t := trimWs line
  if t.head? = some ':' ∧ t.length > 1 then
    let labelText := t.drop 1
    let tokens := labelText.dropWhile Char.isWhitespace
    let name := if tokens.isEmpty then labelText else tokens.takeWhile (fun c => !c.isWhitespace)
    some (lowerStr (trimWs name))
  else none

def buildLabelAux (i : Nat) (m : LabelMap) : List Str → LabelMap
  | [] => m
  | l :: rest =>
    match labelKeyOf l with
    | some k => buildLabelAux (i + 1) (insertLabel m k i) rest
    | none => buildLabelAux (i + 1) m rest

def build_label_map (lines : List Str) : LabelMap :=
  buildLabelAux 0 emptyLabelMap lines

/-! ## Command splitter (src/src/parser/commands.rs)

The source iterates a peekable character stream; the one-character
lookahead after an unquoted `&` or `|` is modelled by the explicit state
`pending`, holding such an operator character until the next character
(or the end of input) resolves it.  `stepCC` is the body of the loop for
an ordinary character. -/

/-- One ordinary character of `split_composite_command`'s loop: returns
the updated `(current, in_quotes, escaped, pending)` (the parts pushed
so far are untouched by an ordinary character). -/
def stepCC (current : Str) (inQuotes escaped : Bool) (c : Char) :
    Str × Bool × Bool × Option Char :=
  if escaped then (current ++ [c], inQuotes, false, none)
  else if c = '^' then (current ++ [c], inQuotes, true, none)
  else if c = '"' then (current ++ [c], !inQuotes, escaped, none)
  else if ¬inQuotes ∧ c = '&' then (current, inQuotes, escaped, some '&')
  else if ¬inQuotes ∧ c = '|' then (current, inQuotes, escaped, some '|')
  else (current ++ [c], inQuotes, escaped, none)

def splitCC (current : Str) (acc : List CommandPart) (inQuotes escaped : Bool)
    (pending : Option Char) : Str → List CommandPart
  | [] =>
    if pending = some '&' then
      acc ++ [⟨trimWs current, some CommandOp.Unconditional⟩]
    else
      let cur := if pending = some '|' then current ++ ['|'] else current
      if (trimWs cur).isEmpty then acc else acc ++ [⟨trimWs cur, none⟩]
  | c :: cs =>
    if pending = some '&' then
      if c = '&' then
        splitCC [] (acc ++ [⟨trimWs current, some CommandOp.And⟩]) inQuotes escaped none cs
      else
        let s := stepCC [] inQuotes escaped c
        splitCC s.1 (acc ++ [⟨trimWs current, some CommandOp.Unconditional⟩])
          s.2.1 s.2.2.1 s.2.2.2 cs
    else if pending = some '|' then
      if c = '|' then
        splitCC [] (acc ++ [⟨trimWs current, some CommandOp.Or⟩]) inQuotes escaped none cs
      else
        let s := stepCC (current ++ ['|']) inQuotes escaped c
        splitCC s.1 acc s.2.1 s.2.2.1 s.2.2.2 cs
    else
      let s := stepCC current inQuotes escaped c
      splitCC s.1 acc s.2.1 s.2.2.1 s.2.2.2 cs

def split_composite_command (line : Str) : List CommandPart :=
  splitCC [] [] false false none line

/-! ## Shell session (src/src/debugger/session.rs) -/

def SENTINEL : Str := str "__CMD_DONE__"

/-- One read from the child's standard output: either a line (without its
terminator; the source keeps terminators when accumulating output, which
is immaterial to the properties below) or a read error. -/
inductive ReadEvent where
  | line (l : Str)
  | readErr
deriving DecidableEq

/-- What one `CmdSession::run` call produced: the collected output, the
exit code, and whether the sentinel exchange was performed at all. -/
structure RunOutcome where
  output : Str
  code : Int
  sentinelExchanged : Bool
deriving DecidableEq

/-- The sentinel test of the read loop (session.rs line 197). -/
def sentinelMatch (trimmed : Str) : Bool :=
  startsWithStr trimmed SENTINEL && endsWithStr trimmed (str "_END")

/-- Exit-code extraction from a sentinel line (session.rs lines 198-205):
the slice between `SENTINEL.len() + 1` and `len - 4`, parsed as i32; the
code stays 0 when the length guard or the parse fails. -/
def parseSentinelCode (trimmed : Str) : Int :=
  if trimmed.length > SENTINEL.length + 1 + 4 then
    match parseI32 ((trimmed.drop (SENTINEL.length + 1)).take
        (trimmed.length - (SENTINEL.length + 1) - 4)) with
    | some code => code
    | none => 0
  else 0

/-- The read loop of `CmdSession::run` (session.rs lines 174-226).  An
`Ok(0)` read (end of stream) makes the source sleep 50ms and retry, so
once the stream has ended the 5-second timeout branch is reached and
returns `Ok((output, 1))`: the end of `events` maps to that timeout
return.  Only a failed read (`Err(e)`) escapes with an error. -/
def readLoop (output : Str) (foundBlank collecting : Bool) :
    List ReadEvent → Except Unit (Str × Int)
  | [] => Except.ok (output, 1)
  | ReadEvent.readErr :: _ => Except.error ()
  | ReadEvent.line l :: rest =>
    let trimmed := trimWs l
    if sentinelMatch trimmed then Except.ok (output, parseSentinelCode trimmed)
    else if trimmed.isEmpty ∧ ¬foundBlank then readLoop output true false rest
    else if collecting ∧ ¬trimmed.isEmpty then readLoop (output ++ l) foundBlank collecting rest
    else readLoop output foundBlank collecting rest

/-- `needs_continuation` (session.rs lines 62-90). -/
def needs_continuation (cmd : Str) : Bool :=
  let r := cmd.foldl
    (fun (s : Int × Bool × Bool) ch =>
      let (count, inQuotes, escaped) := s
      if escaped then (count, inQuotes, false)
      else if ch = '^' then (count, inQuotes, true)
      else if ch = '"' then (count, !inQuotes, escaped)
      else if ¬inQuotes ∧ ch = '(' then (count + 1, inQuotes, escaped)
      else if ¬inQuotes ∧ ch = ')' then (count - 1, inQuotes, escaped)
      else (count, inQuotes, escaped))
    ((0 : Int), false, false)
  r.1 > 0

/-- The `@echo off` / `echo off` special case of `CmdSession::run`
(session.rs lines 116-118). -/
def isEchoOffCmd (cmd : Str) : Bool :=
  eqIgnoreAsciiCase (trimWs cmd) (str "@echo off")
    || eqIgnoreAsciiCase (trimWs cmd) (str "echo off")

/-- `CmdSession::run` (session.rs lines 114-229), with the child's reads
given by `events`.  Writes to the child (including the temp-file path
taken when `needs_continuation` holds) do not affect the returned value
and are not modelled. -/
def CmdSession.run (cmd : Str) (events : List ReadEvent) : Except Unit RunOutcome :=
  if isEchoOffCmd cmd then Except.ok ⟨[], 0, false⟩
  else
    match readLoop [] false true events with
    | Except.ok (out, code) => Except.ok ⟨out, code, true⟩
    | Except.error e => Except.error e

/-! ## Debug context (src/src/debugger/context.rs, mod.rs, stepping.rs,
breakpoints.rs) -/

inductive RunMode where
  | Continue
  | StepOver
  | StepInto
  | StepOut
deriving DecidableEq

abbrev VarMap := Str → Option Str

def emptyVars : VarMap := fun _ => none

def insertVar (m : VarMap) (k v : Str) : VarMap :=
  fun x => if x = k then some v else m x

structure Frame where
  return_pc : Nat
  args : Option (List Str)
  locals : VarMap
  has_setlocal : Bool

def Frame.new (return_pc : Nat) (args : Option (List Str)) : Frame :=
  ⟨return_pc, args, emptyVars, false⟩

/-- `DebugContext`; the call stack is a list with the topmost (innermost)
frame at the head, so Rust's `call_stack.last_mut()` is the head here and
`push` is cons.  The source field `variables` is called `vars` (the
former is a reserved word).  The `session` handle (pure I/O) is not part
of the state.  Breakpoints (a `HashSet<usize>`) are a duplicate-free
list. -/
structure DebugContext where
  vars : VarMap
  call_stack : List Frame
  last_exit_code : Int
  breakpoints : List Nat
  mode : RunMode
  step_out_target_depth : Nat

def DebugContext.new : DebugContext :=
  ⟨emptyVars, [], 0, [], RunMode.Continue, 0⟩

def set_mode (m : RunMode) (st : DebugContext) : DebugContext :=
  { st with mode := m }

def add_breakpoint (bp : Nat) (st : DebugContext) : DebugContext :=
  if st.breakpoints.contains bp then st
  else { st with breakpoints := bp :: st.breakpoints }

/-- Update the topmost frame (`call_stack.last_mut()`); no-op when the
stack is empty. -/
def updTop (f : Frame → Frame) (st : DebugContext) : DebugContext :=
  match st.call_stack with
  | [] => st
  | t :: r => { st with call_stack := f t :: r }

def handle_setlocal (st : DebugContext) : DebugContext :=
  updTop (fun fr => { fr with has_setlocal := true }) st

def handle_endlocal (st : DebugContext) : DebugContext :=
  updTop
    (fun fr =>
      if fr.has_setlocal then { fr with locals := emptyVars, has_setlocal := false }
      else fr)
    st

/-- `get_visible_variables`: the globals overlaid by the topmost frame's
locals when its SETLOCAL flag is active (`visible.extend(locals)` lets
locals shadow globals). -/
def get_visible_variables (st : DebugContext) : VarMap :=
  fun k =>
    match st.call_stack.head? with
    | some fr =>
      if fr.has_setlocal then
        match fr.locals k with
        | some v => some v
        | none => st.vars k
      else st.vars k
    | none => st.vars k

/-- The parsing phase of `track_set_command` (context.rs lines 135-172),
which never touches the context: the accepted key/value assignment, or
`none` when the line is not a tracked simple `SET`. -/
def parseSetAssignment (line : Str) : Option (Str × Str) :=
  let l := trimStartWs line
  if ¬(startsWithStr (upperStr l) (str "SET ") = true) then none
  else
    let rest0 := trimStartWs (l.drop 3)
    if startsWithStr (upperStr rest0) (str "/A") then none
    else if startsWithStr (upperStr rest0) (str "/P") then none
    else
      let rest1 := trimWs rest0
      let rest :=
        if rest1.head? = some '"' ∧ rest1.getLast? = some '"' ∧ rest1.length ≥ 2 then
          (rest1.drop 1).dropLast
        else rest1
      match rest.findIdx? (fun c => c = '=') with
      | none => none
      | some eqPos =>
        let key := trimWs (rest.take eqPos)
        let val := trimWs (rest.drop (eqPos + 1))
        if ¬key.isEmpty ∧ ¬key.contains '+' ∧ ¬key.contains '-'
            ∧ ¬key.contains '*' ∧ ¬key.contains '/' then some (key, val)
        else none

/-- `track_set_command` (context.rs lines 134-183): store the parsed
assignment in the topmost frame's locals when its SETLOCAL flag is
active, otherwise in the globals. -/
def track_set_command (line : Str) (st : DebugContext) : DebugContext :=
  match parseSetAssignment line with
  | none => st
  | some (key, val) =>
    match st.call_stack with
    | fr :: r =>
      if fr.has_setlocal then
        { st with call_stack := { fr with locals := insertVar fr.locals key val } :: r }
      else { st with vars := insertVar st.vars key val }
    | [] => { st with vars := insertVar st.vars key val }

def should_stop_at (st : DebugContext) (pc : Nat) : Bool :=
  match st.mode with
  | RunMode.Continue => st.breakpoints.contains pc
  | RunMode.StepOver => true
  | RunMode.StepInto => true
  | RunMode.StepOut => st.call_stack.length ≤ st.step_out_target_depth

/-- `handle_step_command` (context.rs lines 202-228); only the
`"stepOut"` arm touches `step_out_target_depth`
(`call_stack.len().saturating_sub(1)` is truncated subtraction). -/
def handle_step_command (stepType : String) (st : DebugContext) : DebugContext :=
  if stepType = "continue" then { st with mode := RunMode.Continue }
  else if stepType = "next" ∨ stepType = "stepOver" then { st with mode := RunMode.StepOver }
  else if stepType = "stepIn" ∨ stepType = "stepInto" then { st with mode := RunMode.StepInto }
  else if stepType = "stepOut" then
    { st with mode := RunMode.StepOut,
              step_out_target_depth := st.call_stack.length - 1 }
  else st

/-- `ctx.call_stack.push(Frame::new(..))` in the runner. -/
def pushFrame (f : Frame) (st : DebugContext) : DebugContext :=
  { st with call_stack := f :: st.call_stack }

/-- The state change of `leave_context` (mod.rs lines 35-41) as used by
the runner: pop the topmost frame. -/
def afterLeave (st : DebugContext) : DebugContext :=
  { st with call_stack := st.call_stack.tail }

def trackMany (lines : List Str) (st : DebugContext) : DebugContext :=
  lines.foldl (fun s l => track_set_command l s) st

/-! ## Interpreter part dispatch (src/src/executor/runner.rs lines
335-381) -/

/-- `should_execute` for a non-first part looks at the PREVIOUS part's
operator (`parts[i - 1].op`); `prev = none` encodes `i = 0`. -/
def gatePermits (prev : Option CommandPart) (code : Int) : Bool :=
  match prev with
  | none => true
  | some q =>
    match q.op with
    | some CommandOp.Unconditional => true
    | some CommandOp.And => decide (code = 0)
    | some CommandOp.Or => decide (code ≠ 0)
    | none => true

/-- The part loop of `run_debugger` for a context without positional
arguments, with the session's exit code for an issued part given by
`oracle`.  Returns the per-part issued flags and the final
`last_exit_code`.  A part whose trimmed text is empty is skipped
(`continue`) before the gate is even evaluated. -/
def runPartsGo (oracle : Str → Int) (prev : Option CommandPart) (code : Int) :
    List CommandPart → List Bool × Int
  | [] => ([], code)
  | p :: rest =>
    if (trimWs p.text).isEmpty then
      let r := runPartsGo oracle (some p) code rest
      (false :: r.1, r.2)
    else if gatePermits prev code then
      let r := runPartsGo oracle (some p) (oracle p.text) rest
      (true :: r.1, r.2)
    else
      let r := runPartsGo oracle (some p) code rest
      (false :: r.1, r.2)

def runParts (oracle : Str → Int) (code : Int) (parts : List CommandPart) :
    List Bool × Int :=
  runPartsGo oracle none code parts

/-- The leaf-command execution step of the runner (runner.rs lines
367-374): `track_set_command`, then run the command through the session
and store its exit code.  On `IoError` the runner aborts; the state is
returned unchanged in that case. -/
def runLeafCommand (st : DebugContext) (cmd : Str) (events : List ReadEvent) :
    DebugContext :=
  let st' := track_set_command cmd st
  match CmdSession.run cmd events with
  | Except.ok o => { st' with last_exit_code := o.code }
  | Except.error _ => st'

/-! ## Concrete states used by the theorems below -/

/-- Three nested frames, as after three CALLs. -/
def c1Base : DebugContext :=
  pushFrame (Frame.new 1 none)
    (pushFrame (Frame.new 2 none) (pushFrame (Frame.new 3 none) DebugContext.new))

/-- Step-out issued at depth 3 (recording target depth 2), then two
returns: depth 1 with a recorded target of 2. -/
def c1Mid : DebugContext :=
  afterLeave (afterLeave (handle_step_command "stepOut" c1Base))

/-- A context whose topmost frame is already inside an active SETLOCAL
scope holding a local variable. -/
def c8Bad : DebugContext :=
  track_set_command (str "SET X=1")
    (handle_setlocal (pushFrame (Frame.new 1 none) DebugContext.new))

/-- A fresh frame on a fresh context (no SETLOCAL active yet). -/
def c8Fresh : DebugContext := pushFrame (Frame.new 1 none) DebugContext.new

/-- All reads succeed and none is a sentinel line: the child's stream
simply ends after `events`. -/
def noSentinelEvents (events : List ReadEvent) : Bool :=
  events.all fun e =>
    match e with
    | ReadEvent.line l => !sentinelMatch (trimWs l)
    | ReadEvent.readErr => false

/-! ## Generic list lemmas -/

theorem dropWhile_self (p : Char → Bool) (l : Str) :
    (l.dropWhile p).dropWhile p = l.dropWhile p := by
  induction l with
  | nil => rfl
  | cons a l ih =>
    by_cases h : p a
    · simp [List.dropWhile_cons, h, ih]
    · simp [List.dropWhile_cons, h]

theorem head_dropWhile_false (p : Char → Bool) (l : Str) (a : Char) (t : Str)
    (h : l.dropWhile p = a :: t) : p a = false := by
  induction l with
  | nil => simp at h
  | cons b l ih =>
    by_cases hb : p b
    · rw [List.dropWhile_cons, if_pos hb] at h; exact ih h
    · rw [List.dropWhile_cons, if_neg hb] at h
      injection h with h1 _
      rw [← h1]
      exact Bool.eq_false_iff.mpr hb

theorem length_dropWhile_le (p : Char → Bool) (l : Str) :
    (l.dropWhile p).length ≤ l.length := by
  induction l with
  | nil => simp
  | cons a l ih =>
    by_cases h : p a
    · rw [List.dropWhile_cons, if_pos h]; exact Nat.le_succ_of_le ih
    · rw [List.dropWhile_cons, if_neg h]

theorem dropWhile_take_of_fixed (p : Char → Bool) (l : Str)
    (h : l.dropWhile p = l) : ∀ n, (l.take n).dropWhile p = l.take n := by
  intro n
  cases l with
  | nil => simp
  | cons a l =>
    have hpa : p a = false := by
      by_cases hp : p a
      · exfalso
        rw [List.dropWhile_cons, if_pos hp] at h
        have hle := length_dropWhile_le p l
        rw [h] at hle
        simp at hle
      · exact Bool.eq_false_iff.mpr hp
    cases n with
    | zero => simp
    | succ n => simp [List.dropWhile_cons, hpa]

/-- A list splits into its end-trimmed part and the trimmed tail;
instantiated below for both whitespace predicates. -/
theorem reverse_dropWhile_append (p : Char → Bool) (l : Str) :
    l = (l.reverse.dropWhile p).reverse ++ (l.reverse.takeWhile p).reverse := by
  conv_lhs => rw [← l.reverse_reverse, ← List.takeWhile_append_dropWhile (p := p) (l := l.reverse)]
  rw [List.reverse_append]

theorem trimEndWs_take (l : Str) : trimEndWs l = l.take (trimEndWs l).length := by
  conv_lhs => rw [trimEndWs]
  conv_rhs => rw [reverse_dropWhile_append Char.isWhitespace l]
  rw [List.take_append_of_le_length (by simp [trimEndWs])]
  simp [trimEndWs]

theorem trimStartWs_trimEndWs_of_fixed (l : Str) (h : trimStartWs l = l) :
    trimStartWs (trimEndWs l) = trimEndWs l := by
  rw [trimEndWs_take l]
  exact dropWhile_take_of_fixed Char.isWhitespace l h _

theorem trimEndWs_trimEndWs (l : Str) : trimEndWs (trimEndWs l) = trimEndWs l := by
  simp only [trimEndWs, List.reverse_reverse]
  rw [dropWhile_self]

theorem trimWs_idem (s : Str) : trimWs (trimWs s) = trimWs s := by
  simp only [trimWs]
  rw [trimStartWs_trimEndWs_of_fixed (trimStartWs s) (dropWhile_self _ s),
    trimEndWs_trimEndWs]

/-! ## Caret-continuation structure lemmas -/

theorem caret_head_of_odd (l : Str) (h : caretCountOf l % 2 = 1) :
    ∃ t, (detOf l).reverse = '^' :: t := by
  cases hrev : (detOf l).reverse with
  | nil =>
    exfalso
    rw [caretCountOf, hrev] at h
    simp at h
  | cons c t =>
    by_cases hc : c = '^'
    · exact ⟨t, by rw [hc]⟩
    · exfalso
      rw [caretCountOf, hrev] at h
      simp [List.takeWhile_cons, hc] at h

/-- `det` is a left segment of the line followed by the trimmed
spaces/tabs. -/
theorem detOf_append (l : Str) :
    l = detOf l ++ (l.reverse.takeWhile (fun c => c = ' ' ∨ c = '\t')).reverse := by
  have := reverse_dropWhile_append (fun c => decide (c = ' ' ∨ c = '\t')) l
  simpa [detOf, trimEndSpTab] using this

/-- A continuing line's piece is `det` with exactly its one trailing
caret removed. -/
theorem pieceOf_append_caret (l : Str) (h : caretCountOf l % 2 = 1) :
    pieceOf l ++ ['^'] = detOf l := by
  obtain ⟨t, hrev⟩ := caret_head_of_odd l h
  have hdet : detOf l = t.reverse ++ ['^'] := by
    have := congrArg List.reverse hrev
    simpa using this
  have hlen : (detOf l).length = t.length + 1 := by simp [hdet]
  have hpiece : pieceOf l = t.reverse := by
    rw [pieceOf, hlen]
    conv_lhs => rw [detOf_append l, hdet]
    rw [List.append_assoc]
    rw [List.take_append_of_le_length (by simp)]
    simp
  rw [hpiece, hdet]

/-! ## Session read-loop lemmas -/

theorem readLoop_no_sentinel : ∀ (events : List ReadEvent),
    noSentinelEvents events = true →
    ∀ (output : Str) (fb col : Bool),
      ∃ out, readLoop output fb col events = Except.ok (out, 1) := by
  intro events
  induction events with
  | nil => exact fun _ output fb col => ⟨output, rfl⟩
  | cons e rest ih =>
    intro h output fb col
    cases e with
    | readErr => simp [noSentinelEvents] at h
    | line l =>
      have hrest : noSentinelEvents rest = true := by
        simp only [noSentinelEvents, List.all_cons, Bool.and_eq_true] at h
        exact h.2
      have hsent : sentinelMatch (trimWs l) = false := by
        simp only [noSentinelEvents, List.all_cons, Bool.and_eq_true] at h
        simpa using h.1
      by_cases hb : trimWs l = [] ∧ fb = false
      · have heq : readLoop output fb col (ReadEvent.line l :: rest)
            = readLoop output true false rest := by
          simp [readLoop, hsent, hb, (by decide : sentinelMatch ([] : Str) = false)]
        rw [heq]; exact ih hrest _ _ _
      · by_cases hc : col = true ∧ ¬trimWs l = []
        · have heq : readLoop output fb col (ReadEvent.line l :: rest)
              = readLoop (output ++ l) fb col rest := by
            simp [readLoop, hsent, hb, hc]
          rw [heq]; exact ih hrest _ _ _
        · have heq : readLoop output fb col (ReadEvent.line l :: rest)
              = readLoop output fb col rest := by
            simp [readLoop, hsent, hb, hc]
          rw [heq]; exact ih hrest _ _ _

/-! ## Claim theorems -/

/-- C1, counterexample: a reachable state (three CALL frames, a step-out
issued there, then two returns) at which `set_mode(StepOut)` leaves the
previously recorded `step_out_target_depth = 2` in place instead of
recording `max(0, call_stack.len() - 1) = 0`; `should_stop_at` then
holds (1 ≤ 2) although the claim's captured depth would forbid it
(¬(1 ≤ 0)). -/
theorem c1_counterexample :
    (set_mode RunMode.StepOut c1Mid).step_out_target_depth = 2
    ∧ c1Mid.call_stack.length - 1 = 0
    ∧ should_stop_at (set_mode RunMode.StepOut c1Mid) 0 = true
    ∧ ¬((set_mode RunMode.StepOut c1Mid).call_stack.length
        ≤ c1Mid.call_stack.length - 1) := by
  refine ⟨rfl, rfl, rfl, ?_⟩
  decide

/-- C1, amended: `set_mode` only assigns the mode and never touches
`step_out_target_depth`; it is `handle_step_command("stepOut")` that
records `step_out_target_depth = call_stack.len().saturating_sub(1)` and
enters StepOut; and while StepOut is the mode, `should_stop_at(pc)`
holds exactly when `call_stack.len() ≤ step_out_target_depth`. -/
theorem c1_step_out_depth (st : DebugContext) (pc : Nat) (m : RunMode) :
    (set_mode m st).step_out_target_depth = st.step_out_target_depth
    ∧ (handle_step_command "stepOut" st).step_out_target_depth
        = st.call_stack.length - 1
    ∧ (handle_step_command "stepOut" st).mode = RunMode.StepOut
    ∧ (st.mode = RunMode.StepOut →
        (should_stop_at st pc = true ↔
          st.call_stack.length ≤ st.step_out_target_depth)) := by
  refine ⟨rfl, by simp [handle_step_command], by simp [handle_step_command], ?_⟩
  intro h
  simp [should_stop_at, h]

/-- Witness for C1's amended theorem at a concrete context. -/
theorem c1_step_out_depth_witness :
    (handle_step_command "stepOut" c1Base).mode = RunMode.StepOut
    ∧ (should_stop_at (handle_step_command "stepOut" c1Base) 5 = true
        ↔ (handle_step_command "stepOut" c1Base).call_stack.length
            ≤ (handle_step_command "stepOut" c1Base).step_out_target_depth) :=
  ⟨(c1_step_out_depth c1Base 5 RunMode.Continue).2.2.1,
    (c1_step_out_depth (handle_step_command "stepOut" c1Base) 5 RunMode.Continue).2.2.2
      ((c1_step_out_depth c1Base 5 RunMode.Continue).2.2.1)⟩

/-- C2, counterexample: with the child's stream ended before any
sentinel (no read events at all), `CmdSession::run` returns the normal
pair (empty output, exit code 1) through the timeout branch; it does not
fail with an IoError. -/
theorem c2_counterexample :
    CmdSession.run (str "echo hi") [] = Except.ok ⟨[], 1, true⟩
    ∧ CmdSession.run (str "echo hi") [] ≠ Except.error () := by
  have h : CmdSession.run (str "echo hi") [] = Except.ok ⟨[], 1, true⟩ := by rfl
  exact ⟨h, by rw [h]; exact fun hh => Except.noConfusion hh⟩

/-- C2, amended: when the child's stream ends before a sentinel line has
been seen (and the command is not the echo-off special case), `run`
keeps polling until the 5-second timeout and then returns Ok with the
output collected so far and exit code 1; an IoError arises only from an
actual failed read. -/
theorem c2_eof_timeout (cmd : Str) (events : List ReadEvent)
    (h1 : isEchoOffCmd cmd = false) (h2 : noSentinelEvents events = true) :
    (∃ out, CmdSession.run cmd events = Except.ok ⟨out, 1, true⟩)
    ∧ ∀ (output : Str) (fb col : Bool) (rest : List ReadEvent),
        readLoop output fb col (ReadEvent.readErr :: rest) = Except.error () := by
  constructor
  · obtain ⟨out, hout⟩ := readLoop_no_sentinel events h2 [] false true
    exact ⟨out, by simp [CmdSession.run, h1, hout]⟩
  · intro output fb col rest
    rfl

/-- Witness for C2's amended theorem at a concrete command and stream. -/
theorem c2_eof_timeout_witness :
    ∃ out, CmdSession.run (str "echo hi") [ReadEvent.line (str "hello")]
      = Except.ok ⟨out, 1, true⟩ :=
  (c2_eof_timeout (str "echo hi") [ReadEvent.line (str "hello")]
    (by decide) (by decide)).1

/-- C3, counterexample: a `(` inside a double-quoted region does change
the parenthesis depth: after the joined line `echo "("`, the next line is
annotated with depth 1, not the 0 the claim predicts. -/
theorem c3_counterexample :
    (annotate_blocks [⟨str "echo \"(\"", 0, 0⟩, ⟨str "x", 1, 1⟩]).map
        LogicalLine.group_depth = [0, 1]
    ∧ ¬((annotate_blocks [⟨str "echo \"(\"", 0, 0⟩, ⟨str "x", 1, 1⟩]).map
        LogicalLine.group_depth = [0, 0]) := by
  constructor <;> decide

/-- C3, amended: block annotation tracks caret escapes only — no
double-quote state — so an unescaped parenthesis changes depth and the
group stack even inside a quoted region, while `^(` is consumed as an
escape; and a `)` seen at depth 0 outside an escape leaves the depth at
0 (the depth is clamped). -/
theorem c3_annotate_quotes (s : AnnState) (h1 : s.escaped = false) (h2 : s.depth = 0) :
    (annStep s ')').depth = 0
    ∧ (annotate_blocks [⟨str "echo \"(\"", 0, 0⟩, ⟨str "x", 1, 1⟩]).map
        (fun l => (l.group_depth, l.group_id)) = [(0, none), (1, some 1)]
    ∧ (annotate_blocks [⟨str "echo ^(", 0, 0⟩, ⟨str "x", 1, 1⟩]).map
        (fun l => (l.group_depth, l.group_id)) = [(0, none), (0, none)] := by
  refine ⟨?_, by decide, by decide⟩
  simp [annStep, h1, h2]

/-- Witness for C3's amended theorem at a concrete scan state. -/
theorem c3_annotate_quotes_witness :
    (annStep ⟨0, [], 1, false⟩ ')').depth = 0 :=
  (c3_annotate_quotes ⟨0, [], 1, false⟩ rfl rfl).1

/-- C10: a command whose trimmed text equals `@echo off` or `echo off`
(ASCII case-insensitively) short-circuits `CmdSession::run`: it returns
(empty output, exit code 0) without the sentinel exchange, for any
stream contents, and the runner's leaf step therefore records
`last_exit_code = 0`. -/
theorem c10_echo_off_special (cmd : Str) (events : List ReadEvent) (st : DebugContext)
    (h : isEchoOffCmd cmd = true) :
    CmdSession.run cmd events = Except.ok ⟨[], 0, false⟩
    ∧ (runLeafCommand st cmd events).last_exit_code = 0 := by
  have h1 : CmdSession.run cmd events = Except.ok ⟨[], 0, false⟩ := by
    simp [CmdSession.run, h]
  refine ⟨h1, ?_⟩
  simp [runLeafCommand, h1]

/-- Witness for C10 at a concrete command, stream and context. -/
theorem c10_echo_off_special_witness :
    CmdSession.run (str "  @ECHO off ") [ReadEvent.line (str "junk")]
      = Except.ok ⟨[], 0, false⟩
    ∧ (runLeafCommand DebugContext.new (str "  @ECHO off ")
        [ReadEvent.line (str "junk")]).last_exit_code = 0 :=
  c10_echo_off_special _ _ _ (by decide)

/-! ## Label-map persistence lemmas (C7) -/

theorem buildLabelAux_keeps (lines : List Str) : ∀ (i : Nat) (m : LabelMap) (k : Str) (v : Nat),
    m k = some v → ∃ j, buildLabelAux i m lines k = some j := by
  induction lines with
  | nil => exact fun i m k v h => ⟨v, h⟩
  | cons l rest ih =>
    intro i m k v h
    simp only [buildLabelAux]
    cases hl : labelKeyOf l with
    | none => exact ih (i + 1) m k v h
    | some k' =>
      by_cases hk : k = k'
      · exact ih (i + 1) _ k i (by simp [insertLabel, hk])
      · exact ih (i + 1) _ k v (by simp [insertLabel, hk, h])

theorem buildLabelAux_hits (pre : List Str) : ∀ (i : Nat) (m : LabelMap) (l : Str)
    (suf : List Str) (k : Str), labelKeyOf l = some k →
    ∃ j, buildLabelAux i m (pre ++ l :: suf) k = some j := by
  induction pre with
  | nil =>
    intro i m l suf k hk
    simp only [List.nil_append, buildLabelAux, hk]
    exact buildLabelAux_keeps suf (i + 1) _ k i (by simp [insertLabel])
  | cons p pre ih =>
    intro i m l suf k hk
    simp only [List.cons_append, buildLabelAux]
    cases hp : labelKeyOf p with
    | none => exact ih _ _ _ _ _ hk
    | some k' => exact ih _ _ _ _ _ hk

/-- C7, counterexample: a physical line consisting of `:eof` IS added to
the label map — `build_label_map [":eof"]` maps the key `eof` to line 0;
the claim says the key `eof` never occurs. -/
theorem c7_counterexample :
    build_label_map [str ":eof"] (str "eof") = some 0
    ∧ build_label_map [str ":eof"] (str "eof") ≠ none := by
  constructor <;> decide

/-- C7, amended: `build_label_map` has no special case for the reserved
pseudo-label: every line that defines a label — `:eof` included — puts
its lowercased name into the map (and keys, once present, are never
removed by later lines); in particular `[":eof"]` yields `eof ↦ 0`.
(`GOTO :EOF` is instead intercepted by the interpreter before any label
lookup.) -/
theorem c7_label_map_eof :
    (∀ (pre suf : List Str) (l k : Str), labelKeyOf l = some k →
      ∃ j, build_label_map (pre ++ l :: suf) k = some j)
    ∧ build_label_map [str ":eof"] (str "eof") = some 0 := by
  constructor
  · intro pre suf l k hk
    exact buildLabelAux_hits pre 0 emptyLabelMap l suf k hk
  · decide

/-- Witness for C7's amended theorem at the `:eof` line itself. -/
theorem c7_label_map_eof_witness :
    ∃ j, build_label_map ([] ++ str ":eof" :: []) (str "eof") = some j :=
  c7_label_map_eof.1 [] [] (str ":eof") (str "eof") (by decide)

/-! ## Splitter invariant lemmas (C4) -/

theorem partsAcc_extend (acc : List CommandPart) (t : Str) (o : CommandOp)
    (hacc : ∀ p ∈ acc, p.text = trimWs p.text ∧ p.op ≠ none) :
    ∀ p ∈ acc ++ [⟨trimWs t, some o⟩], p.text = trimWs p.text ∧ p.op ≠ none := by
  intro p hp
  rcases List.mem_append.mp hp with h | h
  · exact hacc p h
  · rw [List.mem_singleton] at h
    subst h
    exact ⟨(trimWs_idem t).symm, by simp⟩

theorem splitCC_inv : ∀ (cs : Str) (current : Str) (acc : List CommandPart)
    (q e : Bool) (pending : Option Char),
    (∀ p ∈ acc, p.text = trimWs p.text ∧ p.op ≠ none) →
    (∀ p ∈ splitCC current acc q e pending cs, p.text = trimWs p.text)
    ∧ (∀ p ∈ (splitCC current acc q e pending cs).dropLast, p.op ≠ none) := by
  intro cs
  induction cs with
  | nil =>
    intro current acc q e pending hacc
    simp only [splitCC]
    by_cases h1 : pending = some '&'
    · rw [if_pos h1]
      constructor
      · intro p hp
        exact (partsAcc_extend acc current CommandOp.Unconditional hacc p hp).1
      · intro p hp
        rw [List.dropLast_concat] at hp
        exact (hacc p hp).2
    · rw [if_neg h1]
      by_cases h2 : (trimWs (if pending = some '|' then current ++ ['|'] else current)).isEmpty
      · rw [if_pos h2]
        exact ⟨fun p hp => (hacc p hp).1,
          fun p hp => (hacc p ((List.dropLast_sublist acc).subset hp)).2⟩
      · rw [if_neg h2]
        constructor
        · intro p hp
          rcases List.mem_append.mp hp with h | h
          · exact (hacc p h).1
          · rw [List.mem_singleton] at h
            subst h
            exact (trimWs_idem _).symm
        · intro p hp
          rw [List.dropLast_concat] at hp
          exact (hacc p hp).2
  | cons c cs ih =>
    intro current acc q e pending hacc
    simp only [splitCC]
    by_cases h1 : pending = some '&'
    · rw [if_pos h1]
      by_cases hc : c = '&'
      · rw [if_pos hc]
        exact ih _ _ _ _ _ (partsAcc_extend acc current CommandOp.And hacc)
      · rw [if_neg hc]
        exact ih _ _ _ _ _ (partsAcc_extend acc current CommandOp.Unconditional hacc)
    · rw [if_neg h1]
      by_cases h2 : pending = some '|'
      · rw [if_pos h2]
        by_cases hc : c = '|'
        · rw [if_pos hc]
          exact ih _ _ _ _ _ (partsAcc_extend acc current CommandOp.Or hacc)
        · rw [if_neg hc]
          exact ih _ _ _ _ _ hacc
      · rw [if_neg h2]
        exact ih _ _ _ _ _ hacc

/-- C4, counterexample: `split_composite_command "& echo A &"` keeps the
empty part produced before the first `&` (the claim says every empty
trimmed part is discarded) and its final part carries
`op = Unconditional`, not `None` (the line ends in an operator, so the
trailing remainder is empty and never appended). -/
theorem c4_counterexample :
    split_composite_command (str "& echo A &")
      = [⟨[], some CommandOp.Unconditional⟩,
         ⟨str "echo A", some CommandOp.Unconditional⟩]
    ∧ (∃ p ∈ split_composite_command (str "& echo A &"), p.text = [])
    ∧ ((split_composite_command (str "& echo A &")).getLast?).map CommandPart.op
        ≠ some none := by
  refine ⟨by decide, by decide, by decide⟩

/-- C4, amended: the splitter splits at unquoted, unescaped `&&` (And),
lone `&` (Unconditional), `||` (Or), and never at a lone `|`; every
returned part is trimmed; a part produced at an operator is kept even
when its trimmed text is empty, and only the trailing remainder is
discarded when empty — so every non-final part carries the operator that
followed it (never `None`), and a line ending in an operator ends with
that operator's part.  On `echo A & echo B && echo C` this yields
exactly the three parts with ops Unconditional, And, None. -/
theorem c4_split_behaviour :
    split_composite_command (str "echo A & echo B && echo C")
      = [⟨str "echo A", some CommandOp.Unconditional⟩,
         ⟨str "echo B", some CommandOp.And⟩, ⟨str "echo C", none⟩]
    ∧ split_composite_command (str "echo \"A & B\" && echo C")
      = [⟨str "echo \"A & B\"", some CommandOp.And⟩, ⟨str "echo C", none⟩]
    ∧ split_composite_command (str "echo A ^& B") = [⟨str "echo A ^& B", none⟩]
    ∧ split_composite_command (str "echo A | find \"B\"")
      = [⟨str "echo A | find \"B\"", none⟩]
    ∧ (∀ (line : Str) (p : CommandPart), p ∈ split_composite_command line →
        p.text = trimWs p.text)
    ∧ (∀ (line : Str) (p : CommandPart),
        p ∈ (split_composite_command line).dropLast → p.op ≠ none) := by
  refine ⟨by decide, by decide, by decide, by decide, ?_, ?_⟩
  · intro line p hp
    exact (splitCC_inv line [] [] false false none (by simp)).1 p hp
  · intro line p hp
    exact (splitCC_inv line [] [] false false none (by simp)).2 p hp

/-- Witness for C4's amended theorem: the first part of the S3 line is
trimmed. -/
theorem c4_split_behaviour_witness :
    (⟨str "echo A", some CommandOp.Unconditional⟩ : CommandPart).text
      = trimWs (⟨str "echo A", some CommandOp.Unconditional⟩ : CommandPart).text :=
  c4_split_behaviour.2.2.2.2.1 (str "echo A & echo B && echo C")
    ⟨str "echo A", some CommandOp.Unconditional⟩ (by decide)

/-- C9, counterexample: on `echo A & & echo B` the middle part is empty
with predecessor operator `&` (Unconditional, which always permits), yet
it is skipped — the issued flags are `[true, false, true]` — refuting
the claimed "issued iff the predecessor's operator permits". -/
theorem c9_counterexample :
    (split_composite_command (str "echo A & & echo B")).map CommandPart.op
      = [some CommandOp.Unconditional, some CommandOp.Unconditional, none]
    ∧ (runParts (fun _ => 0) 0 (split_composite_command (str "echo A & & echo B"))).1
      = [true, false, true] := by
  constructor <;> decide

/-- C9, amended: a part is issued to the session iff its trimmed text is
non-empty AND its predecessor's operator permits it under the exit code
recorded so far (the first part is always permitted; `&` and a
predecessor without operator always permit; `&&` permits iff the code is
0; `||` iff non-zero); an issued part updates the recorded code through
the session, a skipped part leaves it unchanged. -/
theorem c9_gate_characterization :
    (∀ (oracle : Str → Int) (prev : Option CommandPart) (code : Int)
        (p : CommandPart) (rest : List CommandPart),
      (runPartsGo oracle prev code (p :: rest)).1.head?
        = some (!(trimWs p.text).isEmpty && gatePermits prev code))
    ∧ (∀ (oracle : Str → Int) (prev : Option CommandPart) (code : Int)
        (p : CommandPart) (rest : List CommandPart),
      (runPartsGo oracle prev code (p :: rest)).1.tail
        = (runPartsGo oracle (some p)
            (if (!(trimWs p.text).isEmpty && gatePermits prev code) = true
              then oracle p.text else code) rest).1)
    ∧ ∀ (oracle : Str → Int) (code : Int) (parts : List CommandPart),
        runParts oracle code parts = runPartsGo oracle none code parts := by
  refine ⟨?_, ?_, fun _ _ _ => rfl⟩
  · intro oracle prev code p rest
    by_cases he : (trimWs p.text).isEmpty = true
    · simp [runPartsGo, he]
    · by_cases hg : gatePermits prev code = true
      · simp [runPartsGo, he, hg]
      · simp [runPartsGo, he, hg]
  · intro oracle prev code p rest
    by_cases he : (trimWs p.text).isEmpty = true
    · simp [runPartsGo, he]
    · by_cases hg : gatePermits prev code = true
      · simp [runPartsGo, he, hg]
      · simp [runPartsGo, he, hg]

/-! ## SETLOCAL scope lemmas (C8) -/

theorem track_preserves (l : Str) (st : DebugContext) (fr : Frame) (r : List Frame)
    (h : st.call_stack = fr :: r) (hf : fr.has_setlocal = true) :
    (track_set_command l st).vars = st.vars
    ∧ ∃ fr', (track_set_command l st).call_stack = fr' :: r
        ∧ fr'.has_setlocal = true := by
  cases hp : parseSetAssignment l with
  | none =>
    have heq : track_set_command l st = st := by simp [track_set_command, hp]
    rw [heq]
    exact ⟨rfl, fr, h, hf⟩
  | some kv =>
    obtain ⟨key, val⟩ := kv
    have heq : track_set_command l st
        = { st with call_stack := { fr with locals := insertVar fr.locals key val } :: r } := by
      simp [track_set_command, hp, h, hf]
    rw [heq]
    exact ⟨rfl, { fr with locals := insertVar fr.locals key val }, rfl, hf⟩

theorem trackMany_preserves : ∀ (lines : List Str) (st : DebugContext)
    (fr : Frame) (r : List Frame),
    st.call_stack = fr :: r → fr.has_setlocal = true →
    (trackMany lines st).vars = st.vars
    ∧ ∃ fr', (trackMany lines st).call_stack = fr' :: r
        ∧ fr'.has_setlocal = true := by
  intro lines
  induction lines with
  | nil => exact fun st fr r h hf => ⟨rfl, fr, h, hf⟩
  | cons l rest ih =>
    intro st fr r h hf
    obtain ⟨hv, fr', hcs, hf'⟩ := track_preserves l st fr r h hf
    have step : trackMany (l :: rest) st = trackMany rest (track_set_command l st) := rfl
    rw [step]
    obtain ⟨hv2, fr'', hcs2, hf2⟩ := ih (track_set_command l st) fr' r hcs hf'
    exact ⟨hv2.trans hv, fr'', hcs2, hf2⟩

/-- C8, counterexample: in a reachable state whose topmost frame is
ALREADY inside an active SETLOCAL scope holding local `X=1`, the
sequence SETLOCAL, (no SETs), ENDLOCAL does not restore the visible
variables: `X` was visible before and is gone after (the single
ENDLOCAL discards the pre-existing locals). -/
theorem c8_counterexample :
    get_visible_variables c8Bad (str "X") = some (str "1")
    ∧ get_visible_variables (handle_endlocal (trackMany [] (handle_setlocal c8Bad)))
        (str "X") = none
    ∧ c8Bad.call_stack.length = 1 := by
  refine ⟨by decide, by decide, by decide⟩

/-- C8, amended: provided the topmost frame's SETLOCAL flag is not
already set when the `handle_setlocal` is performed, the sequence
`handle_setlocal`, any `track_set_command` calls, `handle_endlocal`
leaves `get_visible_variables` equal to its value before the
`handle_setlocal`, and the global variable map is unchanged throughout
(after every prefix of the tracked lines, and at the end). -/
theorem c8_setlocal_law (st : DebugContext) (lines : List Str) (fr : Frame)
    (r : List Frame) (h : st.call_stack = fr :: r) (hflag : fr.has_setlocal = false) :
    get_visible_variables (handle_endlocal (trackMany lines (handle_setlocal st)))
      = get_visible_variables st
    ∧ (handle_endlocal (trackMany lines (handle_setlocal st))).vars = st.vars
    ∧ ∀ pre suf, lines = pre ++ suf →
        (trackMany pre (handle_setlocal st)).vars = st.vars := by
  have h1 : handle_setlocal st
      = { st with call_stack := { fr with has_setlocal := true } :: r } := by
    simp [handle_setlocal, updTop, h]
  have h1v : (handle_setlocal st).vars = st.vars := by rw [h1]
  obtain ⟨hv, fr', hcs, hf'⟩ := trackMany_preserves lines (handle_setlocal st)
    { fr with has_setlocal := true } r (by rw [h1]) rfl
  have h2 : handle_endlocal (trackMany lines (handle_setlocal st))
      = { trackMany lines (handle_setlocal st) with
          call_stack := { fr' with locals := emptyVars, has_setlocal := false } :: r } := by
    simp [handle_endlocal, updTop, hcs, hf']
  have hvfinal : (handle_endlocal (trackMany lines (handle_setlocal st))).vars = st.vars := by
    rw [h2]
    exact hv.trans h1v
  refine ⟨?_, hvfinal, ?_⟩
  · funext k
    rw [h2]
    simp only [get_visible_variables, h, List.head?_cons]
    rw [hflag]
    simp only [Bool.false_eq_true, if_false]
    exact congrFun (hv.trans h1v) k
  · intro pre suf _
    obtain ⟨hvp, _⟩ := trackMany_preserves pre (handle_setlocal st)
      { fr with has_setlocal := true } r (by rw [h1]) rfl
    exact hvp.trans h1v

/-- Witness for C8's amended theorem: a fresh frame, one tracked SET,
matched SETLOCAL/ENDLOCAL. -/
theorem c8_setlocal_law_witness :
    get_visible_variables
        (handle_endlocal (trackMany [str "SET X=1"] (handle_setlocal c8Fresh)))
      = get_visible_variables c8Fresh :=
  (c8_setlocal_law c8Fresh [str "SET X=1"] (Frame.new 1 none) [] rfl rfl).1

/-- C6, counterexample: a physical line consisting of a single caret
continues (odd trailing run), but joining it with the next line inserts
NO space — the joined text is exactly the next line's text, not the
claimed space-separated form (the buffer is empty after stripping the
lone caret, and the source only inserts the separator into a non-empty
buffer). -/
theorem c6_counterexample :
    continuesOf (str "^") = true
    ∧ (join_continued_lines [str "^", str "x"]).map JoinedLine.text = [str "x"]
    ∧ str "x" ≠ ' ' :: str "x" := by
  refine ⟨by decide, by decide, by decide⟩

/-- C6, amended: a physical line is joined with its successor iff its
trailing caret run (ignoring trailing spaces/tabs) has odd length; the
continuing line contributes its text up to, but excluding, that one
trailing caret (so exactly one caret is stripped), and a single space is
inserted before the next line's text whenever the accumulated text is
non-empty (a line reduced to nothing — e.g. a lone caret — contributes
no separator); joining is transitive across consecutive continuing
lines; the S2 script yields three logical lines with physical-to-logical
map `[0, 1, 1, 2]`. -/
theorem c6_join_continuation :
    (∀ l : Str, continuesOf l = true ↔ caretCountOf l % 2 = 1)
    ∧ (∀ l : Str, continuesOf l = true → pieceOf l ++ ['^'] = detOf l)
    ∧ (∀ l1 l2 : Str, continuesOf l1 = true → continuesOf l2 = false →
        (pieceOf l1).isEmpty = false →
        join_continued_lines [l1, l2] = [⟨pieceOf l1 ++ ' ' :: l2, 0, 1⟩])
    ∧ (∀ l1 l2 : Str, continuesOf l1 = true → continuesOf l2 = false →
        (pieceOf l1).isEmpty = true →
        join_continued_lines [l1, l2] = [⟨l2, 0, 1⟩])
    ∧ (∀ l1 l2 l3 : Str, continuesOf l1 = true → continuesOf l2 = true →
        continuesOf l3 = false → (pieceOf l1).isEmpty = false →
        join_continued_lines [l1, l2, l3]
          = [⟨pieceOf l1 ++ ' ' :: (pieceOf l2 ++ ' ' :: l3), 0, 2⟩])
    ∧ (preprocess_lines [str "@echo off", str "echo This is a ^",
          str "continued line", str "exit /b 0"]).map
        (fun res => (res.logical.length, res.phys_to_logical)) = some (3, [0, 1, 1, 2]) := by
  refine ⟨?_, ?_, ?_, ?_, ?_, by decide⟩
  · intro l
    constructor
    · intro h
      simp only [continuesOf, Bool.and_eq_true, decide_eq_true_eq] at h
      exact h.2
    · intro h
      obtain ⟨t, hrev⟩ := caret_head_of_odd l h
      simp only [continuesOf, Bool.and_eq_true, decide_eq_true_eq]
      refine ⟨⟨?_, ?_⟩, h⟩
      · simp only [Bool.not_eq_true']
        cases hdet : detOf l with
        | nil => rw [hdet] at hrev; simp at hrev
        | cons a u => rfl
      · rw [hrev]
        simp [List.find?]
  · intro l h
    refine pieceOf_append_caret l ?_
    simp only [continuesOf, Bool.and_eq_true, decide_eq_true_eq] at h
    exact h.2
  · intro l1 l2 h1 h2 hp
    simp [join_continued_lines, joinAll, h1, h2, hp]
  · intro l1 l2 h1 h2 hp
    simp [join_continued_lines, joinAll, h1, h2, hp]
  · intro l1 l2 l3 h1 h2 h3 hp
    simp [join_continued_lines, joinAll, h1, h2, h3, hp]

/-- Witness for C6's amended theorem: the S2 continuation pair. -/
theorem c6_join_continuation_witness :
    join_continued_lines [str "echo This is a ^", str "continued line"]
      = [⟨pieceOf (str "echo This is a ^") ++ ' ' :: str "continued line", 0, 1⟩] :=
  c6_join_continuation.2.2.1 (str "echo This is a ^") (str "continued line")
    (by decide) (by decide) (by decide)

/-- C5 (code bug): when the LAST physical line ends with an odd caret
run, the join loop records `phys_end = physical.len()` — one past the
last valid index — and `preprocess_lines` then writes
`phys_to_logical[p]` for `p` up to that bound, indexing out of range (a
Rust panic, modelled as `none`).  On such inputs no preprocess result
exists at all, so the claimed span bijection cannot hold. -/
theorem c5_preprocess_oob :
    (join_continued_lines [str "echo hi ^"]).map (fun j => (j.phys_start, j.phys_end))
      = [(0, 1)]
    ∧ preprocess_lines [str "echo hi ^"] = none := by
  constructor <;> decide
